import Mathlib

/-!
Shallow embedding of the leaderboard repository (Node.js + PostgreSQL + Redis).

Embedded source files:
* src/unnamed/part_004  (leaderboardService.js): `getDateStrings`, `addScore`,
  `getPlayersAroundUser`, `parseLeaderboardResults`, Redis sorted-set usage.
* src/services/leaderboardSync.js: `getDateStrings` (a second, independent copy),
  `syncLeaderboardsFromDB`, `forceSyncLeaderboards`,
  `rebuildTimeBasedLeaderboards`, `getSyncStatus`.
* src/controllers/scoreController.js: `submitScore`.
* src/middleware/validators.js: `scoreValidation` (score must be an integer >= 0).
* src/middleware/errorHandler.js: Redis errors are surfaced to the caller as an
  HTTP 503 failure response; ApiError carries its own status code.

Modelling decisions:
* A Redis sorted set ("board") is a finite association list from encoded members
  to natural-number scores (all scores written by this program are non-negative
  integers: the DB model validates `score >= 0`).  `zadd` with the GT flag,
  `zincrby`, `zcard`, `zrevrank`, `zrevrange`, `del` are embedded with their
  documented semantics.  Key TTLs (`expire`) are not modelled: no claim below
  is about the passage of time.
* A member is `JSON.stringify({id, username})`.  The embedding distinguishes a
  decodable encoding (`EncMember.enc id username`, for which `JSON.parse`
  succeeds and yields both fields) from a legacy/undecodable one
  (`EncMember.raw s`, for which `JSON.parse` throws), which is exactly the
  distinction `parseLeaderboardResults` branches on.
* The PostgreSQL side is a record of user rows, game rows and score rows; the
  Sequelize aggregate queries (`Score.max`, `Score.sum`, distinct counts) are
  embedded as list folds over the score rows.
* JavaScript `Date` values are embedded as a structure carrying the fields the
  code reads: epoch milliseconds, the ISO date string, the local calendar year,
  the epoch milliseconds of local January 1st of that year, and the 0-based
  local month.  `Math.ceil` of an exact division is embedded as the rational
  ceiling (the millisecond quantities involved are far below the range where
  double rounding could move a quotient across an integer).
-/

namespace Leaderboard

/-- A stored sorted-set member string: either a decodable
`JSON.stringify({id, username})` or a legacy string that `JSON.parse` rejects. -/
inductive EncMember where
  | enc (id username : String)
  | raw (s : String)
deriving DecidableEq, Repr

/-- A Redis sorted set, as a finite association list member ↦ score. -/
abbrev Board := List (EncMember × Nat)

/-- Does the board contain the member?  (A board built by the operations below
holds each member at most once, as a Redis sorted set does.) -/
def hasMember : Board → EncMember → Bool
  | [], _ => false
  | e :: t, m => decide (e.1 = m) || hasMember t m

/-- Redis ZSCORE: the member's score, if present. -/
def zscore : Board → EncMember → Option Nat
  | [], _ => none
  | e :: t, m => if e.1 = m then some e.2 else zscore t m

/-- Redis ZADD (plain): set the member's score, inserting it if absent. -/
def zadd : Board → Nat → EncMember → Board
  | [], s, m => [(m, s)]
  | e :: t, s, m => if e.1 = m then (m, s) :: t else e :: zadd t s m

/-- Redis ZADD with the GT flag: update an existing member only if the new
score is greater (keep the maximum); still inserts absent members. -/
def zaddGT : Board → Nat → EncMember → Board
  | [], s, m => [(m, s)]
  | e :: t, s, m => if e.1 = m then (m, max e.2 s) :: t else e :: zaddGT t s m

/-- Redis ZINCRBY: add to the member's score, treating an absent member as 0. -/
def zincrby : Board → Nat → EncMember → Board
  | [], s, m => [(m, s)]
  | e :: t, s, m => if e.1 = m then (m, e.2 + s) :: t else e :: zincrby t s m

/-- Redis ZCARD: number of entries. -/
def zcard (b : Board) : Nat := b.length

/-- Insert one entry into a list already ordered by strictly decreasing score
(ties keep their relative order). -/
def insertDesc (x : EncMember × Nat) : List (EncMember × Nat) → List (EncMember × Nat)
  | [] => [x]
  | y :: ys => if y.2 < x.2 then x :: y :: ys else y :: insertDesc x ys

/-- The board ordered by descending score (the view ZREVRANGE / ZREVRANK use). -/
def sortedDesc (b : Board) : List (EncMember × Nat) :=
  b.foldr insertDesc []

/-- Redis ZREVRANK: 0-based position of the member in descending-score order. -/
def zrevrank (b : Board) (m : EncMember) : Option Nat :=
  (sortedDesc b).findIdx? (fun e => decide (e.1 = m))

/-- Redis ZREVRANGE start stop WITHSCORES (0-based, inclusive, clipped at the
end of the set). -/
def zrevrange (b : Board) (start stop : Nat) : List (EncMember × Nat) :=
  ((sortedDesc b).drop start).take (stop + 1 - start)

/-- The Redis state: the global board, and the per-game / per-day / per-week /
per-month boards addressed by their key string. -/
structure Store where
  global : Board
  game : String → Board
  daily : String → Board
  weekly : String → Board
  monthly : String → Board

/-- Replace one game board. -/
def setGame (st : Store) (g : String) (b : Board) : Store :=
  { st with game := fun k => if k = g then b else st.game k }

/-- The store with every board empty. -/
def emptyStore : Store :=
  ⟨[], fun _ => [], fun _ => [], fun _ => [], fun _ => []⟩

/-- The `{date, week, month}` strings both copies of `getDateStrings` return. -/
structure DateStrings where
  date : String
  week : String
  month : String
deriving DecidableEq, Repr

/-- The fields of a JavaScript `Date` that the code reads.  `localJan1Ms` is
the epoch-millisecond value of `new Date(year, 0, 1)` for the date's local
calendar year `localYear`; `localMonth` is the 0-based `getMonth()` value;
`isoDate` is `toISOString().split('T')[0]`. -/
structure JSDate where
  epochMs : Int
  isoDate : String
  localYear : Int
  localJan1Ms : Int
  localMonth : Nat

/-- `String(n).padStart(2, '0')` for the month numbers used here. -/
def pad2 (n : Nat) : String :=
  if n < 10 then "0" ++ toString n else toString n

/-- `getDateStrings` from src/unnamed/part_004 (leaderboardService.js):
`week = Math.ceil((now - new Date(year,0,1)) / (7*24*60*60*1000))`. -/
def getDateStrings (d : JSDate) : DateStrings :=
  { date := d.isoDate
    week := toString d.localYear ++ "-W" ++
      toString (⌈(((d.epochMs - d.localJan1Ms : Int) : ℚ) / (7 * 24 * 60 * 60 * 1000))⌉)
    month := toString d.localYear ++ "-" ++ pad2 (d.localMonth + 1) }

/-- `getDateStrings` from src/services/leaderboardSync.js — an independent,
textually identical copy of the same helper. -/
def getDateStringsSync (d : JSDate) : DateStrings :=
  { date := d.isoDate
    week := toString d.localYear ++ "-W" ++
      toString (⌈(((d.epochMs - d.localJan1Ms : Int) : ℚ) / (7 * 24 * 60 * 60 * 1000))⌉)
    month := toString d.localYear ++ "-" ++ pad2 (d.localMonth + 1) }

/-- `addScore` from src/unnamed/part_004: ZADD GT on the game board, ZINCRBY on
the global and the current daily/weekly/monthly boards, then ZREVRANK reads on
the game and global boards for the response (`+1` to make ranks 1-based). -/
def addScore (ds : DateStrings) (userId gameId : String) (score : Nat)
    (username : String) (st : Store) : Store × (Option Nat × Option Nat) :=
  let member := EncMember.enc userId username
  let st1 := setGame st gameId (zaddGT (st.game gameId) score member)
  let st2 := { st1 with global := zincrby st1.global score member }
  let st3 := { st2 with daily := fun k =>
    if k = ds.date then zincrby (st2.daily k) score member else st2.daily k }
  let st4 := { st3 with weekly := fun k =>
    if k = ds.week then zincrby (st3.weekly k) score member else st3.weekly k }
  let st5 := { st4 with monthly := fun k =>
    if k = ds.month then zincrby (st4.monthly k) score member else st4.monthly k }
  let gameRank := zrevrank (st5.game gameId) member
  let globalRank := zrevrank st5.global member
  (st5, (gameRank.map (· + 1), globalRank.map (· + 1)))

/-- A row of the `scores` table (src/models/Score.js): the DB model validates
`score >= 0`, so scores are naturals; `submittedAt` is an epoch timestamp. -/
structure ScoreRecord where
  userId : String
  gameId : String
  score : Nat
  submittedAt : Int
deriving DecidableEq, Repr

/-- A row of the `users` table (the fields the sync engine reads). -/
structure UserR where
  id : String
  username : String
  isActive : Bool
deriving DecidableEq, Repr

/-- A row of the `games` table (the fields the core reads). -/
structure GameR where
  id : String
  name : String
  isActive : Bool
  maxScore : Option Nat
deriving DecidableEq, Repr

/-- The PostgreSQL state. -/
structure DB where
  users : List UserR
  games : List GameR
  scores : List ScoreRecord
deriving Repr

/-- The sorted-set member for a user row: `JSON.stringify({id, username})`. -/
def memberOf (u : UserR) : EncMember :=
  EncMember.enc u.id u.username

/-- The maximum of a nonempty list of naturals, `none` on the empty list
(Sequelize `Score.max` returns `null` when no row matches). -/
def listMax : List Nat → Option Nat
  | [] => none
  | x :: xs => some (xs.foldl max x)

/-- `Score.max('score', {where: {userId, gameId}})`. -/
def ledgerMax (l : List ScoreRecord) (uid gid : String) : Option Nat :=
  listMax ((l.filter (fun r => decide (r.userId = uid) && decide (r.gameId = gid))).map
    (fun r => r.score))

/-- `Score.sum('score', {where: {userId}})`, with the empty sum read as 0
(in JavaScript the `null` that Sequelize returns compares `> 0` as false,
exactly as 0 does). -/
def ledgerSumAll (l : List ScoreRecord) (uid : String) : Nat :=
  ((l.filter (fun r => decide (r.userId = uid))).map (fun r => r.score)).sum

/-- `Score.sum('score', {where: {userId, submittedAt: {gte: t}}})`. -/
def ledgerSumSince (l : List ScoreRecord) (uid : String) (t : Int) : Nat :=
  ((l.filter (fun r => decide (r.userId = uid) && decide (t ≤ r.submittedAt))).map
    (fun r => r.score)).sum

/-- `Score.count({where: {gameId}, distinct: true, col: 'userId'})`. -/
def distinctPlayers (l : List ScoreRecord) (gid : String) : Nat :=
  ((l.filter (fun r => decide (r.gameId = gid))).map (fun r => r.userId)).dedup.length

/-- The active games, in table order (`Game.findAll({where: {isActive: true}})`). -/
def activeGames (db : DB) : List GameR :=
  db.games.filter (fun g => g.isActive)

/-- The active users, in table order (`User.findAll({where: {isActive: true}})`). -/
def activeUsers (db : DB) : List UserR :=
  db.users.filter (fun u => u.isActive)

/-- The `pipeline.del` pass of `forceSyncLeaderboards`: clear the board of every
game in the list. -/
def clearGameBoards (gs : List GameR) (st : Store) : Store :=
  gs.foldl (fun st g => setGame st g.id []) st

/-- One iteration of the inner games loop of `forceSyncLeaderboards`: look up
the user's best score in the game and, if any, ZADD it onto the game board. -/
def syncUserGame (l : List ScoreRecord) (g : GameR) (mem : EncMember) (uid : String)
    (st : Store) : Store :=
  match ledgerMax l uid g.id with
  | some b => setGame st g.id (zadd (st.game g.id) b mem)
  | none => st

/-- One iteration of the users loop of `forceSyncLeaderboards`: per-game best
scores, then the user's total score onto the global board if strictly positive
(`if (totalScore > 0)`). -/
def syncUser (l : List ScoreRecord) (gs : List GameR) (u : UserR) (st : Store) : Store :=
  let mem := memberOf u
  let st1 := gs.foldl (fun st g => syncUserGame l g mem u.id st) st
  let total := ledgerSumAll l u.id
  if 0 < total then { st1 with global := zadd st1.global total mem } else st1

/-- One iteration of the users loop of `rebuildTimeBasedLeaderboards`: the
daily/weekly/monthly sums, each written only when strictly positive. -/
def rebuildTimeUser (l : List ScoreRecord) (ds : DateStrings)
    (today weekStart monthStart : Int) (u : UserR) (st : Store) : Store :=
  let mem := memberOf u
  let dailyScore := ledgerSumSince l u.id today
  let st1 := if 0 < dailyScore then
      { st with daily := fun k =>
        if k = ds.date then zadd (st.daily k) dailyScore mem else st.daily k }
    else st
  let weeklyScore := ledgerSumSince l u.id weekStart
  let st2 := if 0 < weeklyScore then
      { st1 with weekly := fun k =>
        if k = ds.week then zadd (st1.weekly k) weeklyScore mem else st1.weekly k }
    else st1
  let monthlyScore := ledgerSumSince l u.id monthStart
  if 0 < monthlyScore then
    { st2 with monthly := fun k =>
      if k = ds.month then zadd (st2.monthly k) monthlyScore mem else st2.monthly k }
  else st2

/-- `rebuildTimeBasedLeaderboards(users, games)` from
src/services/leaderboardSync.js. -/
def rebuildTimeBasedLeaderboards (l : List ScoreRecord) (ds : DateStrings)
    (today weekStart monthStart : Int) (us : List UserR) (st : Store) : Store :=
  us.foldl (fun st u => rebuildTimeUser l ds today weekStart monthStart u st) st

/-- The summary object `forceSyncLeaderboards` resolves with (elapsed time not
modelled). -/
structure SyncResult where
  synced : Bool
  usersProcessed : Nat
  gamesProcessed : Nat
  scoresProcessed : Nat
deriving DecidableEq, Repr

/-- `forceSyncLeaderboards` from src/services/leaderboardSync.js: delete the
global board and every active game board, then for each active user rebuild its
per-game best scores and (when strictly positive) its global total, then
rebuild the current daily/weekly/monthly boards.  `ds` are the current date
strings and `today`/`weekStart`/`monthStart` the epoch timestamps of the
corresponding period starts. -/
def forceSyncLeaderboards (db : DB) (ds : DateStrings)
    (today weekStart monthStart : Int) (st : Store) : Store × SyncResult :=
  let games := activeGames db
  let st1 := { st with global := ([] : Board) }
  let st2 := clearGameBoards games st1
  let users := activeUsers db
  let st3 := users.foldl (fun st u => syncUser db.scores games u st) st2
  let st4 := rebuildTimeBasedLeaderboards db.scores ds today weekStart monthStart users st3
  (st4,
   { synced := true
     usersProcessed := users.length
     gamesProcessed := games.length
     scoresProcessed :=
       (users.map (fun u => games.countP (fun g => (ledgerMax db.scores u.id g.id).isSome))).sum })

/-- The result of `syncLeaderboardsFromDB`: either the skip object
`{synced: false, reason: 'Redis already has data'}` or the forwarded
`forceSyncLeaderboards` summary. -/
inductive SyncOutcome where
  | skipped
  | synced (r : SyncResult)
deriving DecidableEq, Repr

/-- `syncLeaderboardsFromDB` from src/services/leaderboardSync.js (the spec's
`checkAndSync`): ZCARD the global board; if nonzero skip, otherwise force a
full rebuild. -/
def syncLeaderboardsFromDB (db : DB) (ds : DateStrings)
    (today weekStart monthStart : Int) (st : Store) : Store × SyncOutcome :=
  if 0 < zcard st.global then (st, SyncOutcome.skipped)
  else
    let r := forceSyncLeaderboards db ds today weekStart monthStart st
    (r.1, SyncOutcome.synced r.2)

/-- One per-game row of the `getSyncStatus` report. -/
structure GameStat where
  gameId : String
  gameName : String
  dbPlayers : Nat
  redisPlayers : Nat
  inSync : Bool
deriving DecidableEq, Repr

/-- The `getSyncStatus` report. -/
structure SyncStatus where
  dbUsers : Nat
  dbTotalScores : Nat
  redisGlobalSize : Nat
  games : List GameStat
  overallInSync : Bool
deriving DecidableEq, Repr

/-- `getSyncStatus` from src/services/leaderboardSync.js: per active game,
the distinct-user count of its score rows versus the ZCARD of its board. -/
def getSyncStatus (db : DB) (st : Store) : SyncStatus :=
  { dbUsers := (activeUsers db).length
    dbTotalScores := db.scores.length
    redisGlobalSize := zcard st.global
    games := (activeGames db).map (fun g =>
      let dbCount := distinctPlayers db.scores g.id
      let redisCount := zcard (st.game g.id)
      { gameId := g.id
        gameName := g.name
        dbPlayers := dbCount
        redisPlayers := redisCount
        inSync := decide (dbCount = redisCount) })
    overallInSync := decide (0 < zcard st.global) }

/-- The caller-visible outcome of a score submission: the 201 success payload,
or the failure response produced by the error handler (`ApiError` keeps its
status code; a Redis error is mapped to 503). -/
inductive SubmitResponse where
  | success (scoreId : Nat) (gameRank globalRank : Option Nat)
  | failure (status : Nat)
deriving DecidableEq, Repr

/-- `Game.findByPk(gameId)`. -/
def findGame (db : DB) (gid : String) : Option GameR :=
  db.games.find? (fun g => decide (g.id = gid))

/-- The guard `if (game.maxScore && score > game.maxScore)` of `submitScore`
(JavaScript truthiness: a missing or zero `maxScore` disables the check). -/
def maxScoreViolated (g : GameR) (score : Int) : Bool :=
  match g.maxScore with
  | some m => decide (0 < m) && decide ((m : Int) < score)
  | none => false

/-- The body of `submitScore` from src/controllers/scoreController.js, entered
only after `scoreValidation` accepted the request: game lookup (404 if absent,
400 if inactive), the `maxScore` guard (400), then `Score.create` on the ledger
and `leaderboardService.addScore` on Redis.  `redisUp` models whether the Redis
calls succeed; when they fail the thrown error reaches the error handler and
the response is a 503 failure, with the ledger row already committed.  The new
row's id is modelled as the prior row count. -/
def submitScoreCtrl (db : DB) (ds : DateStrings) (redisUp : Bool)
    (userId username gameId : String) (score : Int) (now : Int) (st : Store) :
    DB × Store × SubmitResponse :=
  match findGame db gameId with
  | none => (db, st, SubmitResponse.failure 404)
  | some g =>
    if !g.isActive then (db, st, SubmitResponse.failure 400)
    else if maxScoreViolated g score then (db, st, SubmitResponse.failure 400)
    else
      let rec_ : ScoreRecord := ⟨userId, gameId, score.toNat, now⟩
      let db1 := { db with scores := db.scores ++ [rec_] }
      if redisUp then
        let r := addScore ds userId gameId score.toNat username st
        (db1, r.1, SubmitResponse.success db.scores.length r.2.1 r.2.2)
      else
        (db1, st, SubmitResponse.failure 503)

/-- The full submission pipeline: the `scoreValidation` middleware
(src/middleware/validators.js) rejects a negative score with a 400 before the
controller runs, then `submitScoreCtrl`. -/
def submitScore (db : DB) (ds : DateStrings) (redisUp : Bool)
    (userId username gameId : String) (score : Int) (now : Int) (st : Store) :
    DB × Store × SubmitResponse :=
  if score < 0 then (db, st, SubmitResponse.failure 400)
  else submitScoreCtrl db ds redisUp userId username gameId score now st

/-- One decoded row of a leaderboard page. -/
structure Entry where
  rank : Nat
  userId : String
  username : String
  score : Nat
deriving DecidableEq, Repr

/-- `parseLeaderboardResults` from src/unnamed/part_004, over the
`(member, score)` pairs a WITHSCORES reply flattens: a decodable member yields
a decoded entry, an undecodable one yields the catch-branch legacy entry whose
`userId` and `username` are the raw member string; ranks continue from
`startOffset`. -/
def parseLeaderboardResults : List (EncMember × Nat) → Nat → List Entry
  | [], _ => []
  | (m, s) :: rest, off =>
    (match m with
     | EncMember.enc id un => { rank := off + 1, userId := id, username := un, score := s }
     | EncMember.raw str => { rank := off + 1, userId := str, username := str, score := s })
    :: parseLeaderboardResults rest (off + 1)

/-- The result of `getPlayersAroundUser`. -/
structure AroundResult where
  userRank : Option Nat
  players : List Entry
deriving DecidableEq, Repr

/-- The board `getPlayersAroundUser` queries:
`gameId ? KEYS.GAME_LEADERBOARD(gameId) : KEYS.GLOBAL_LEADERBOARD`. -/
def boardKeyOf (gameId : Option String) (st : Store) : Board :=
  match gameId with
  | some g => st.game g
  | none => st.global

/-- `getPlayersAroundUser` from src/unnamed/part_004: ZREVRANK the member on
the chosen board; absent means an empty result; otherwise ZREVRANGE the window
from max(0, rank - range) to rank + range (the lower clip is natural
subtraction here) and decode it. -/
def getPlayersAroundUser (userId username : String) (gameId : Option String)
    (range : Nat) (st : Store) : AroundResult :=
  let member := EncMember.enc userId username
  let key : Board := boardKeyOf gameId st
  match zrevrank key member with
  | none => { userRank := none, players := [] }
  | some rank =>
    let start := rank - range
    let stop := rank + range
    let results := zrevrange key start stop
    { userRank := some (rank + 1), players := parseLeaderboardResults results start }

/-- Running a sequence of submissions by one user through the incremental path:
each element carries the date strings at submission time, the target game and
the submitted value. -/
def runSubmissions (userId username : String)
    (subs : List (DateStrings × String × Nat)) (st : Store) : Store :=
  subs.foldl (fun st sub => (addScore sub.1 userId sub.2.1 sub.2.2 username st).1) st

section BoardLemmas

theorem zscore_isSome_eq_hasMember (b : Board) (m : EncMember) :
    (zscore b m).isSome = hasMember b m := by
  induction b with
  | nil => rfl
  | cons e t ih =>
    by_cases h : e.1 = m
    · simp [zscore, hasMember, h]
    · simp [zscore, hasMember, h, ih]

theorem zscore_zadd_self (b : Board) (s : Nat) (m : EncMember) :
    zscore (zadd b s m) m = some s := by
  induction b with
  | nil => simp [zadd, zscore]
  | cons e t ih =>
    by_cases h : e.1 = m
    · simp [zadd, zscore, h]
    · simp [zadd, zscore, h, ih]

theorem zscore_zadd_ne (b : Board) (s : Nat) (m m' : EncMember) (hne : m' ≠ m) :
    zscore (zadd b s m) m' = zscore b m' := by
  induction b with
  | nil => simp [zadd, zscore, hne, Ne.symm hne]
  | cons e t ih =>
    by_cases h : e.1 = m
    · simp [zadd, zscore, h, hne, Ne.symm hne]
    · by_cases h' : e.1 = m'
      · simp [zadd, zscore, h, h', hne]
      · simp [zadd, zscore, h, h', ih]

theorem zscore_zaddGT_self (b : Board) (s : Nat) (m : EncMember) :
    zscore (zaddGT b s m) m
      = some (((zscore b m).map (fun v => max v s)).getD s) := by
  induction b with
  | nil => simp [zaddGT, zscore]
  | cons e t ih =>
    by_cases h : e.1 = m
    · simp [zaddGT, zscore, h]
    · simp [zaddGT, zscore, h, ih]

theorem zscore_zaddGT_ne (b : Board) (s : Nat) (m m' : EncMember) (hne : m' ≠ m) :
    zscore (zaddGT b s m) m' = zscore b m' := by
  induction b with
  | nil => simp [zaddGT, zscore, hne, Ne.symm hne]
  | cons e t ih =>
    by_cases h : e.1 = m
    · simp [zaddGT, zscore, h, hne, Ne.symm hne]
    · by_cases h' : e.1 = m'
      · simp [zaddGT, zscore, h, h', hne]
      · simp [zaddGT, zscore, h, h', ih]

theorem zscore_zincrby_self (b : Board) (s : Nat) (m : EncMember) :
    zscore (zincrby b s m) m = some ((zscore b m).getD 0 + s) := by
  induction b with
  | nil => simp [zincrby, zscore]
  | cons e t ih =>
    by_cases h : e.1 = m
    · simp [zincrby, zscore, h]
    · simp [zincrby, zscore, h, ih]

theorem zscore_zincrby_ne (b : Board) (s : Nat) (m m' : EncMember) (hne : m' ≠ m) :
    zscore (zincrby b s m) m' = zscore b m' := by
  induction b with
  | nil => simp [zincrby, zscore, hne, Ne.symm hne]
  | cons e t ih =>
    by_cases h : e.1 = m
    · simp [zincrby, zscore, h, hne, Ne.symm hne]
    · by_cases h' : e.1 = m'
      · simp [zincrby, zscore, h, h', hne]
      · simp [zincrby, zscore, h, h', ih]

/-- ZADD on a board not containing the member appends it at the end. -/
theorem zadd_of_not_hasMember (b : Board) (s : Nat) (m : EncMember)
    (h : hasMember b m = false) :
    zadd b s m = b ++ [(m, s)] := by
  induction b with
  | nil => rfl
  | cons e t ih =>
    have he : ¬(e.1 = m) := by
      intro hc
      simp [hasMember, hc] at h
    have ht : hasMember t m = false := by
      simpa [hasMember, he] using h
    simp [zadd, he, ih ht]

/-- Membership in an extended board. -/
theorem hasMember_append_single (b : Board) (m m' : EncMember) (v : Nat) :
    hasMember (b ++ [(m, v)]) m' = (hasMember b m' || decide (m' = m)) := by
  induction b with
  | nil => simp [hasMember, eq_comm]
  | cons e t ih =>
    by_cases h : e.1 = m'
    · simp [hasMember, h]
    · simp [hasMember, h, ih]

end BoardLemmas

section AddScoreLemmas

theorem addScore_fst_game (ds : DateStrings) (uid g : String) (v : Nat) (un : String)
    (st : Store) (k : String) :
    ((addScore ds uid g v un st).1).game k
      = if k = g then zaddGT (st.game g) v (EncMember.enc uid un) else st.game k := by
  simp [addScore, setGame]

theorem addScore_fst_global (ds : DateStrings) (uid g : String) (v : Nat) (un : String)
    (st : Store) :
    ((addScore ds uid g v un st).1).global = zincrby st.global v (EncMember.enc uid un) := by
  simp [addScore, setGame]

end AddScoreLemmas

/-- C9: both copies of getDateStrings agree on every input, and the weekly key
is year-W-ceil(daysSinceJan1 / 7), where daysSinceJan1 is the (fractional)
number of days between the timestamp and local January 1st of its calendar
year, expressed in milliseconds over 24*60*60*1000. -/
theorem C9_weekly_key_policy (d : JSDate) :
    getDateStrings d = getDateStringsSync d ∧
    (getDateStrings d).week
      = toString d.localYear ++ "-W" ++
        toString (⌈(((d.epochMs - d.localJan1Ms : Int) : ℚ) / (24 * 60 * 60 * 1000)) / 7⌉) := by
  refine ⟨rfl, ?_⟩
  have h : ((((d.epochMs - d.localJan1Ms : Int) : ℚ) / (24 * 60 * 60 * 1000)) / 7)
      = (((d.epochMs - d.localJan1Ms : Int) : ℚ) / (7 * 24 * 60 * 60 * 1000)) := by
    rw [div_div]
    norm_num
  rw [h]
  rfl

/-- C7: syncLeaderboardsFromDB (the spec's checkAndSync) is a pure no-op that
reports a skip whenever the global board is nonempty, and otherwise invokes
forceSyncLeaderboards. -/
theorem C7_checkAndSync_heuristic (db : DB) (ds : DateStrings) (t w m : Int) (st : Store) :
    (0 < zcard st.global →
      syncLeaderboardsFromDB db ds t w m st = (st, SyncOutcome.skipped)) ∧
    (zcard st.global = 0 →
      syncLeaderboardsFromDB db ds t w m st
        = ((forceSyncLeaderboards db ds t w m st).1,
           SyncOutcome.synced (forceSyncLeaderboards db ds t w m st).2)) := by
  constructor
  · intro h
    simp [syncLeaderboardsFromDB, h]
  · intro h
    simp [syncLeaderboardsFromDB, h]

/-- Concrete store for the C7 witness: one member on the global board. -/
def storeC7 : Store :=
  { emptyStore with global := [(EncMember.enc "u1" "alice", 5)] }

theorem C7_checkAndSync_heuristic_witness :
    0 < zcard storeC7.global ∧
    syncLeaderboardsFromDB ⟨[], [], []⟩ ⟨"2024-01-01", "2024-W1", "2024-01"⟩ 0 0 0 storeC7
      = (storeC7, SyncOutcome.skipped) :=
  ⟨by decide,
   (C7_checkAndSync_heuristic ⟨[], [], []⟩ ⟨"2024-01-01", "2024-W1", "2024-01"⟩
      0 0 0 storeC7).1 (by decide)⟩

/-- C3: a submission whose value is negative (rejected by the scoreValidation
middleware) or exceeds the game's configured positive maxScore (rejected by
the controller guard) yields a 400 failure and leaves both the ledger and
every board unchanged. -/
theorem C3_invalid_score_rejected (db : DB) (ds : DateStrings) (redisUp : Bool)
    (uid un gid : String) (score : Int) (now : Int) (st : Store) :
    (score < 0 →
      submitScore db ds redisUp uid un gid score now st
        = (db, st, SubmitResponse.failure 400)) ∧
    (∀ g maxS, findGame db gid = some g → g.isActive = true → g.maxScore = some maxS →
      0 < maxS → (maxS : Int) < score →
      submitScore db ds redisUp uid un gid score now st
        = (db, st, SubmitResponse.failure 400)) := by
  constructor
  · intro h
    simp [submitScore, h]
  · intro g maxS hg ha hm hpos hlt
    by_cases hneg : score < 0
    · simp [submitScore, hneg]
    · simp [submitScore, hneg, submitScoreCtrl, hg, ha, maxScoreViolated, hm, hpos, hlt]

/-- Concrete DB for the C3 witness: one active game capped at 100. -/
def dbC3 : DB :=
  ⟨[⟨"u1", "alice", true⟩], [⟨"g1", "Pong", true, some 100⟩], []⟩

theorem C3_invalid_score_rejected_witness :
    submitScore dbC3 ⟨"d", "w", "m"⟩ true "u1" "alice" "g1" (-5) 0 emptyStore
      = (dbC3, emptyStore, SubmitResponse.failure 400) ∧
    submitScore dbC3 ⟨"d", "w", "m"⟩ true "u1" "alice" "g1" 150 0 emptyStore
      = (dbC3, emptyStore, SubmitResponse.failure 400) :=
  ⟨(C3_invalid_score_rejected dbC3 ⟨"d", "w", "m"⟩ true "u1" "alice" "g1" (-5) 0
      emptyStore).1 (by decide),
   (C3_invalid_score_rejected dbC3 ⟨"d", "w", "m"⟩ true "u1" "alice" "g1" 150 0
      emptyStore).2 ⟨"g1", "Pong", true, some 100⟩ 100 (by decide) rfl rfl
      (by decide) (by decide)⟩

/-- C4 (amended): when the Redis writes fail after the ledger write succeeded,
submitScore reports the submission as failed (a 503 from the error handler);
the ledger row persists and the boards are unchanged — but the caller sees a
failure, not a partial success. -/
theorem C4_redis_failure_after_ledger (db : DB) (ds : DateStrings)
    (uid un gid : String) (score now : Int) (st : Store) (g : GameR)
    (hg : findGame db gid = some g) (ha : g.isActive = true)
    (hnn : 0 ≤ score) (hmax : maxScoreViolated g score = false) :
    submitScore db ds false uid un gid score now st
      = ({ db with scores := db.scores ++ [⟨uid, gid, score.toNat, now⟩] }, st,
         SubmitResponse.failure 503) := by
  have hneg : ¬score < 0 := not_lt.mpr hnn
  simp [submitScore, hneg, submitScoreCtrl, hg, ha, hmax]

/-- Concrete DB for C4: one active uncapped game, empty ledger. -/
def dbC4 : DB :=
  ⟨[⟨"u1", "alice", true⟩], [⟨"g1", "Pong", true, none⟩], []⟩

/-- C4 counterexample: with the ledger write succeeded and Redis down, the
response is a 503 failure — not a partial success (the code has no
partial-success response at all) — while the score row was committed. -/
theorem C4_counterexample :
    (submitScore dbC4 ⟨"d", "w", "m"⟩ false "u1" "alice" "g1" 10 0 emptyStore).2.2
      = SubmitResponse.failure 503 ∧
    (submitScore dbC4 ⟨"d", "w", "m"⟩ false "u1" "alice" "g1" 10 0 emptyStore).1.scores
      = [⟨"u1", "g1", 10, 0⟩] := by
  exact ⟨rfl, rfl⟩

theorem C4_redis_failure_after_ledger_witness :
    submitScore dbC4 ⟨"d", "w", "m"⟩ false "u1" "alice" "g1" 10 0 emptyStore
      = ({ dbC4 with scores := [⟨"u1", "g1", 10, 0⟩] }, emptyStore,
         SubmitResponse.failure 503) :=
  C4_redis_failure_after_ledger dbC4 ⟨"d", "w", "m"⟩ "u1" "alice" "g1" 10 0 emptyStore
    ⟨"g1", "Pong", true, none⟩ (by decide) rfl (by decide) rfl

/-- C6 (amended): parseLeaderboardResults never fails and never skips an
entry: the page has exactly one entry per stored pair, a decodable member is
decoded into its userId and username, and an undecodable member is returned in
place as a legacy entry whose userId and username are the raw member string. -/
theorem C6_parse_keeps_malformed_entries (rs : List (EncMember × Nat)) (off : Nat) :
    (parseLeaderboardResults rs off).length = rs.length ∧
    (∀ i m s, rs[i]? = some (m, s) →
      (parseLeaderboardResults rs off)[i]?
        = some ((match m with
            | EncMember.enc id un =>
                { rank := off + i + 1, userId := id, username := un, score := s }
            | EncMember.raw str =>
                { rank := off + i + 1, userId := str, username := str, score := s }
            : Entry))) := by
  induction rs generalizing off with
  | nil =>
    refine ⟨rfl, ?_⟩
    intro i m s h
    simp at h
  | cons e rest ih =>
    obtain ⟨m0, s0⟩ := e
    refine ⟨by simpa [parseLeaderboardResults] using (ih (off + 1)).1, ?_⟩
    intro i m s h
    cases i with
    | zero =>
      simp only [List.getElem?_cons_zero, Option.some.injEq, Prod.mk.injEq] at h
      obtain ⟨hm, hs⟩ := h
      subst hm
      subst hs
      cases m0 <;> simp [parseLeaderboardResults]
    | succ j =>
      rw [List.getElem?_cons_succ] at h
      have h2 := (ih (off + 1)).2 j m s h
      simp only [parseLeaderboardResults, List.getElem?_cons_succ]
      rw [h2]
      cases m <;> simp <;> omega

/-- C6 counterexample: an undecodable stored member is not omitted from the
page — it is returned in place as a legacy entry. -/
theorem C6_counterexample :
    parseLeaderboardResults [(EncMember.raw "legacy-user", 42)] 0
      = [{ rank := 1, userId := "legacy-user", username := "legacy-user", score := 42 }] ∧
    parseLeaderboardResults [(EncMember.raw "legacy-user", 42)] 0 ≠ [] := by
  exact ⟨rfl, by decide⟩

theorem C6_parse_keeps_malformed_entries_witness :
    (parseLeaderboardResults [(EncMember.enc "u1" "alice", 7), (EncMember.raw "x", 3)] 5).length = 2 ∧
    (parseLeaderboardResults [(EncMember.enc "u1" "alice", 7), (EncMember.raw "x", 3)] 5)[1]?
      = some { rank := 7, userId := "x", username := "x", score := 3 } :=
  ⟨(C6_parse_keeps_malformed_entries
      [(EncMember.enc "u1" "alice", 7), (EncMember.raw "x", 3)] 5).1,
   (C6_parse_keeps_malformed_entries
      [(EncMember.enc "u1" "alice", 7), (EncMember.raw "x", 3)] 5).2 1
      (EncMember.raw "x") 3 (by decide)⟩

section RankLemmas

theorem length_insertDesc (x : EncMember × Nat) (l : List (EncMember × Nat)) :
    (insertDesc x l).length = l.length + 1 := by
  induction l with
  | nil => rfl
  | cons y ys ih =>
    by_cases h : y.2 < x.2 <;> simp [insertDesc, h, ih]

theorem length_sortedDesc (b : Board) : (sortedDesc b).length = b.length := by
  induction b with
  | nil => rfl
  | cons e t ih =>
    rw [show sortedDesc (e :: t) = insertDesc e (sortedDesc t) from rfl,
        length_insertDesc, ih, List.length_cons]

theorem findIdx?_some_lt_length {α : Type} (p : α → Bool) :
    ∀ (l : List α) (i j : Nat), List.findIdx? p l i = some j → j < i + l.length := by
  intro l
  induction l with
  | nil =>
    intro i j h
    simp [List.findIdx?_nil] at h
  | cons x xs ih =>
    intro i j h
    rw [List.findIdx?_cons] at h
    by_cases hp : p x = true
    · rw [if_pos hp] at h
      have : i = j := by injection h
      simp [← this]
    · rw [if_neg hp] at h
      have := ih (i + 1) j h
      simp only [List.length_cons]
      omega

theorem zrevrank_lt_zcard (b : Board) (m : EncMember) (r : Nat)
    (h : zrevrank b m = some r) : r < zcard b := by
  unfold zrevrank at h
  have := findIdx?_some_lt_length _ _ 0 r h
  simpa [zcard, length_sortedDesc] using this

theorem parseLeaderboardResults_length (rs : List (EncMember × Nat)) (off : Nat) :
    (parseLeaderboardResults rs off).length = rs.length := by
  induction rs generalizing off with
  | nil => rfl
  | cons e rest ih =>
    obtain ⟨m, s⟩ := e
    simp [parseLeaderboardResults, ih]

theorem length_zrevrange (b : Board) (start stop : Nat) :
    (zrevrange b start stop).length = min (stop + 1 - start) (b.length - start) := by
  simp [zrevrange, List.length_take, List.length_drop, length_sortedDesc]

end RankLemmas

/-- C8 (amended): for a member ranked r (0-based) on a board of cardinality n,
getPlayersAroundUser returns the member's 1-based rank r+1 together with the
entries at 0-based ranks max(0, r-radius) .. min(r+radius, n-1), i.e. exactly
min(r+radius+1, n) - max(0, r-radius) entries — this equals the claim's
min(2*radius+1, n) only when the window is not clipped at either end; for an
unranked member the result is empty. -/
theorem C8_neighbors (userId username : String) (gameId : Option String)
    (range : Nat) (st : Store) :
    (∀ r, zrevrank (boardKeyOf gameId st) (EncMember.enc userId username) = some r →
      (getPlayersAroundUser userId username gameId range st).userRank = some (r + 1) ∧
      (getPlayersAroundUser userId username gameId range st).players.length
        = min (r + range + 1) (zcard (boardKeyOf gameId st)) - (r - range)) ∧
    (zrevrank (boardKeyOf gameId st) (EncMember.enc userId username) = none →
      getPlayersAroundUser userId username gameId range st
        = { userRank := none, players := [] }) := by
  constructor
  · intro r h
    have hr : r < zcard (boardKeyOf gameId st) := zrevrank_lt_zcard _ _ _ h
    constructor
    · simp [getPlayersAroundUser, h]
    · simp only [getPlayersAroundUser, h, parseLeaderboardResults_length,
        length_zrevrange]
      simp only [zcard] at hr ⊢
      omega
  · intro h
    simp [getPlayersAroundUser, h]

/-- Concrete six-member game board for C8. -/
def storeC8 : Store :=
  { emptyStore with game := fun k =>
      if k = "g1" then
        [(EncMember.enc "u1" "p1", 60), (EncMember.enc "u2" "p2", 50),
         (EncMember.enc "u3" "p3", 40), (EncMember.enc "u4" "p4", 30),
         (EncMember.enc "u5" "p5", 20), (EncMember.enc "u6" "p6", 10)]
      else [] }

/-- C8 counterexample: the bottom-ranked member of a six-member board with
radius 2 receives 3 neighbors, not min(2*2+1, 6) = 5 as the claim states. -/
theorem C8_counterexample :
    (getPlayersAroundUser "u6" "p6" (some "g1") 2 storeC8).players.length = 3 ∧
    min (2 * 2 + 1) (zcard (boardKeyOf (some "g1") storeC8)) = 5 ∧
    (getPlayersAroundUser "u6" "p6" (some "g1") 2 storeC8).players.length
      ≠ min (2 * 2 + 1) (zcard (boardKeyOf (some "g1") storeC8)) := by
  exact ⟨rfl, rfl, by decide⟩

theorem C8_neighbors_witness :
    zrevrank (boardKeyOf (some "g1") storeC8) (EncMember.enc "u3" "p3") = some 2 ∧
    (getPlayersAroundUser "u3" "p3" (some "g1") 2 storeC8).userRank = some 3 ∧
    (getPlayersAroundUser "u3" "p3" (some "g1") 2 storeC8).players.length
      = min (2 + 2 + 1) (zcard (boardKeyOf (some "g1") storeC8)) - (2 - 2) :=
  ⟨by decide,
   ((C8_neighbors "u3" "p3" (some "g1") 2 storeC8).1 2 (by decide)).1,
   ((C8_neighbors "u3" "p3" (some "g1") 2 storeC8).1 2 (by decide)).2⟩

section IncrementalLemmas

theorem runSubmissions_cons (uid un : String) (sub : DateStrings × String × Nat)
    (rest : List (DateStrings × String × Nat)) (st : Store) :
    runSubmissions uid un (sub :: rest) st
      = runSubmissions uid un rest ((addScore sub.1 uid sub.2.1 sub.2.2 un st).1) := rfl

theorem runSubmissions_game_some (uid un g : String)
    (subs : List (DateStrings × String × Nat)) (hall : ∀ sub ∈ subs, sub.2.1 = g)
    (st : Store) (a : Nat)
    (h : zscore (st.game g) (EncMember.enc uid un) = some a) :
    zscore ((runSubmissions uid un subs st).game g) (EncMember.enc uid un)
      = some ((subs.map (fun sub => sub.2.2)).foldl max a) := by
  induction subs generalizing st a with
  | nil => simpa [runSubmissions]
  | cons sub rest ih =>
    obtain ⟨ds0, g0, v0⟩ := sub
    have hg : g0 = g := hall ⟨ds0, g0, v0⟩ (List.mem_cons_self _ _)
    subst hg
    rw [runSubmissions_cons]
    have hb : zscore (((addScore ds0 uid g0 v0 un st).1).game g0) (EncMember.enc uid un)
        = some (max a v0) := by
      rw [addScore_fst_game, if_pos rfl, zscore_zaddGT_self, h]
      rfl
    rw [ih (fun sub hs => hall sub (List.mem_cons_of_mem _ hs)) _ _ hb]
    simp

theorem runSubmissions_global_some (uid un : String)
    (subs : List (DateStrings × String × Nat)) (st : Store) (a : Nat)
    (h : zscore st.global (EncMember.enc uid un) = some a) :
    zscore ((runSubmissions uid un subs st).global) (EncMember.enc uid un)
      = some (a + (subs.map (fun sub => sub.2.2)).sum) := by
  induction subs generalizing st a with
  | nil => simpa [runSubmissions]
  | cons sub rest ih =>
    obtain ⟨ds0, g0, v0⟩ := sub
    rw [runSubmissions_cons]
    have hb : zscore (((addScore ds0 uid g0 v0 un st).1).global) (EncMember.enc uid un)
        = some (a + v0) := by
      rw [addScore_fst_global, zscore_zincrby_self, h]
      rfl
    rw [ih _ _ hb]
    simp only [List.map_cons, List.sum_cons, Option.some.injEq]
    omega

end IncrementalLemmas

section SyncFrameLemmas

theorem setGame_global (st : Store) (g : String) (b : Board) :
    (setGame st g b).global = st.global := rfl

theorem syncUserGame_global (l : List ScoreRecord) (g : GameR) (mem : EncMember)
    (uid : String) (st : Store) :
    (syncUserGame l g mem uid st).global = st.global := by
  unfold syncUserGame
  cases ledgerMax l uid g.id <;> rfl

theorem syncUserGame_game_ne (l : List ScoreRecord) (g : GameR) (mem : EncMember)
    (uid : String) (st : Store) (k : String) (h : k ≠ g.id) :
    (syncUserGame l g mem uid st).game k = st.game k := by
  unfold syncUserGame
  cases ledgerMax l uid g.id with
  | none => rfl
  | some b => simp [setGame, h]

theorem syncUserGame_game_self (l : List ScoreRecord) (g : GameR) (mem : EncMember)
    (uid : String) (st : Store) :
    (syncUserGame l g mem uid st).game g.id
      = match ledgerMax l uid g.id with
        | some b => zadd (st.game g.id) b mem
        | none => st.game g.id := by
  unfold syncUserGame
  cases ledgerMax l uid g.id with
  | none => rfl
  | some b => simp [setGame]

theorem gamesFold_global (l : List ScoreRecord) (mem : EncMember) (uid : String)
    (gs : List GameR) (st : Store) :
    (gs.foldl (fun st g => syncUserGame l g mem uid st) st).global = st.global := by
  induction gs generalizing st with
  | nil => rfl
  | cons g rest ih =>
    rw [List.foldl_cons, ih, syncUserGame_global]

theorem gamesFold_game_not_mem (l : List ScoreRecord) (mem : EncMember) (uid : String)
    (gs : List GameR) (st : Store) (k : String) (hk : k ∉ gs.map GameR.id) :
    (gs.foldl (fun st g => syncUserGame l g mem uid st) st).game k = st.game k := by
  induction gs generalizing st with
  | nil => rfl
  | cons g rest ih =>
    simp only [List.map_cons, List.mem_cons, not_or] at hk
    rw [List.foldl_cons, ih _ hk.2, syncUserGame_game_ne _ _ _ _ _ _ hk.1]

theorem gamesFold_game_mem (l : List ScoreRecord) (mem : EncMember) (uid : String)
    (gs : List GameR) (st : Store) (g : GameR)
    (hnd : (gs.map GameR.id).Nodup) (hg : g ∈ gs) :
    (gs.foldl (fun st g => syncUserGame l g mem uid st) st).game g.id
      = match ledgerMax l uid g.id with
        | some b => zadd (st.game g.id) b mem
        | none => st.game g.id := by
  induction gs generalizing st with
  | nil => cases hg
  | cons g0 rest ih =>
    simp only [List.map_cons, List.nodup_cons] at hnd
    rw [List.foldl_cons]
    rcases List.mem_cons.mp hg with rfl | hgr
    · rw [gamesFold_game_not_mem l mem uid rest _ g.id hnd.1, syncUserGame_game_self]
    · have hne : g.id ≠ g0.id := by
        intro hc
        exact hnd.1 (hc ▸ List.mem_map_of_mem GameR.id hgr)
      rw [ih _ hnd.2 hgr, syncUserGame_game_ne _ _ _ _ _ _ hne]

theorem syncUser_global (l : List ScoreRecord) (gs : List GameR) (u : UserR) (st : Store) :
    (syncUser l gs u st).global
      = if 0 < ledgerSumAll l u.id
        then zadd st.global (ledgerSumAll l u.id) (memberOf u)
        else st.global := by
  unfold syncUser
  by_cases h : 0 < ledgerSumAll l u.id <;> simp [h, gamesFold_global]

theorem syncUser_game_mem (l : List ScoreRecord) (gs : List GameR) (u : UserR)
    (st : Store) (g : GameR) (hnd : (gs.map GameR.id).Nodup) (hg : g ∈ gs) :
    (syncUser l gs u st).game g.id
      = match ledgerMax l u.id g.id with
        | some b => zadd (st.game g.id) b (memberOf u)
        | none => st.game g.id := by
  unfold syncUser
  by_cases h : 0 < ledgerSumAll l u.id <;>
    simp [h, gamesFold_game_mem l (memberOf u) u.id gs st g hnd hg]

theorem memberOf_ne_of_id_ne (u v : UserR) (h : u.id ≠ v.id) :
    memberOf u ≠ memberOf v := by
  intro hc
  simp only [memberOf, EncMember.enc.injEq] at hc
  exact h hc.1

end SyncFrameLemmas

section SyncCharLemmas

theorem usersFold_game_char (l : List ScoreRecord) (gs : List GameR) (g : GameR)
    (hgnd : (gs.map GameR.id).Nodup) (hg : g ∈ gs) :
    ∀ (us : List UserR) (st : Store), (us.map UserR.id).Nodup →
      (∀ u ∈ us, hasMember (st.game g.id) (memberOf u) = false) →
      (us.foldl (fun st u => syncUser l gs u st) st).game g.id
        = st.game g.id
          ++ us.filterMap
              (fun u => (ledgerMax l u.id g.id).map (fun b => (memberOf u, b))) := by
  intro us
  induction us with
  | nil =>
    intro st _ _
    simp
  | cons u0 rest ih =>
    intro st hnd hfresh
    simp only [List.map_cons, List.nodup_cons] at hnd
    rw [List.foldl_cons]
    have hstep := syncUser_game_mem l gs u0 st g hgnd hg
    cases hmax : ledgerMax l u0.id g.id with
    | none =>
      have hb : (syncUser l gs u0 st).game g.id = st.game g.id := by
        rw [hstep, hmax]
      rw [ih (syncUser l gs u0 st) hnd.2 (by
        intro u hu
        rw [hb]
        exact hfresh u (List.mem_cons_of_mem _ hu))]
      rw [hb, List.filterMap_cons, hmax]
      simp
    | some b =>
      have hb : (syncUser l gs u0 st).game g.id
          = st.game g.id ++ [(memberOf u0, b)] := by
        rw [hstep, hmax]
        exact zadd_of_not_hasMember _ _ _ (hfresh u0 (List.mem_cons_self _ _))
      rw [ih (syncUser l gs u0 st) hnd.2 (by
        intro u hu
        rw [hb, hasMember_append_single]
        have h1 : hasMember (st.game g.id) (memberOf u) = false :=
          hfresh u (List.mem_cons_of_mem _ hu)
        have h2 : memberOf u ≠ memberOf u0 := by
          apply memberOf_ne_of_id_ne
          intro hc
          exact hnd.1 (hc ▸ List.mem_map_of_mem UserR.id hu)
        simp [h1, h2])]
      rw [hb, List.filterMap_cons, hmax]
      simp

theorem usersFold_global_char (l : List ScoreRecord) (gs : List GameR) :
    ∀ (us : List UserR) (st : Store), (us.map UserR.id).Nodup →
      (∀ u ∈ us, hasMember st.global (memberOf u) = false) →
      (us.foldl (fun st u => syncUser l gs u st) st).global
        = st.global
          ++ us.filterMap
              (fun u => (if 0 < ledgerSumAll l u.id
                         then some (ledgerSumAll l u.id) else none).map
                  (fun b => (memberOf u, b))) := by
  intro us
  induction us with
  | nil =>
    intro st _ _
    simp
  | cons u0 rest ih =>
    intro st hnd hfresh
    simp only [List.map_cons, List.nodup_cons] at hnd
    rw [List.foldl_cons]
    have hstep := syncUser_global l gs u0 st
    by_cases hpos : 0 < ledgerSumAll l u0.id
    · have hb : (syncUser l gs u0 st).global
          = st.global ++ [(memberOf u0, ledgerSumAll l u0.id)] := by
        rw [hstep, if_pos hpos]
        exact zadd_of_not_hasMember _ _ _ (hfresh u0 (List.mem_cons_self _ _))
      rw [ih (syncUser l gs u0 st) hnd.2 (by
        intro u hu
        rw [hb, hasMember_append_single]
        have h1 : hasMember st.global (memberOf u) = false :=
          hfresh u (List.mem_cons_of_mem _ hu)
        have h2 : memberOf u ≠ memberOf u0 := by
          apply memberOf_ne_of_id_ne
          intro hc
          exact hnd.1 (hc ▸ List.mem_map_of_mem UserR.id hu)
        simp [h1, h2])]
      rw [hb, List.filterMap_cons]
      simp [hpos]
    · have hb : (syncUser l gs u0 st).global = st.global := by
        rw [hstep, if_neg hpos]
      rw [ih (syncUser l gs u0 st) hnd.2 (by
        intro u hu
        rw [hb]
        exact hfresh u (List.mem_cons_of_mem _ hu))]
      rw [hb, List.filterMap_cons]
      simp [hpos]

theorem rebuildTimeUser_global (l : List ScoreRecord) (ds : DateStrings)
    (t w m : Int) (u : UserR) (st : Store) :
    (rebuildTimeUser l ds t w m u st).global = st.global := by
  simp only [rebuildTimeUser]
  split_ifs <;> rfl

theorem rebuildTimeUser_game (l : List ScoreRecord) (ds : DateStrings)
    (t w m : Int) (u : UserR) (st : Store) :
    (rebuildTimeUser l ds t w m u st).game = st.game := by
  simp only [rebuildTimeUser]
  split_ifs <;> rfl

theorem rebuildTimeBasedLeaderboards_global (l : List ScoreRecord) (ds : DateStrings)
    (t w m : Int) (us : List UserR) (st : Store) :
    (rebuildTimeBasedLeaderboards l ds t w m us st).global = st.global := by
  induction us generalizing st with
  | nil => rfl
  | cons u rest ih =>
    simp only [rebuildTimeBasedLeaderboards] at ih ⊢
    rw [List.foldl_cons, ih, rebuildTimeUser_global]

theorem rebuildTimeBasedLeaderboards_game (l : List ScoreRecord) (ds : DateStrings)
    (t w m : Int) (us : List UserR) (st : Store) :
    (rebuildTimeBasedLeaderboards l ds t w m us st).game = st.game := by
  induction us generalizing st with
  | nil => rfl
  | cons u rest ih =>
    simp only [rebuildTimeBasedLeaderboards] at ih ⊢
    rw [List.foldl_cons, ih, rebuildTimeUser_game]

theorem clearGameBoards_global (gs : List GameR) (st : Store) :
    (clearGameBoards gs st).global = st.global := by
  induction gs generalizing st with
  | nil => rfl
  | cons g rest ih =>
    simp only [clearGameBoards] at ih ⊢
    rw [List.foldl_cons, ih, setGame_global]

theorem clearGameBoards_preserve_empty (gs : List GameR) (st : Store) (k : String)
    (h : st.game k = []) :
    (clearGameBoards gs st).game k = [] := by
  induction gs generalizing st with
  | nil => exact h
  | cons g rest ih =>
    simp only [clearGameBoards] at ih ⊢
    rw [List.foldl_cons]
    apply ih
    by_cases hk : k = g.id
    · simp [setGame, hk]
    · simp [setGame, hk, h]

theorem clearGameBoards_game_mem (gs : List GameR) (st : Store) (g : GameR)
    (hg : g ∈ gs) :
    (clearGameBoards gs st).game g.id = [] := by
  induction gs generalizing st with
  | nil => cases hg
  | cons g0 rest ih =>
    simp only [clearGameBoards] 
    rw [List.foldl_cons]
    rcases List.mem_cons.mp hg with rfl | hgr
    · exact clearGameBoards_preserve_empty rest _ g.id (by simp [setGame])
    · exact ih _ hgr

theorem zscore_filterMap_none (p : UserR → Option Nat) :
    ∀ (us : List UserR) (u : UserR), u.id ∉ us.map UserR.id →
      zscore (us.filterMap (fun v => (p v).map (fun b => (memberOf v, b))))
        (memberOf u) = none := by
  intro us
  induction us with
  | nil =>
    intro u _
    rfl
  | cons v0 rest ih =>
    intro u hu
    simp only [List.map_cons, List.mem_cons, not_or] at hu
    have hne : memberOf v0 ≠ memberOf u :=
      memberOf_ne_of_id_ne v0 u (fun hc => hu.1 hc.symm)
    cases hp : p v0 with
    | none =>
      rw [List.filterMap_cons, hp]
      exact ih u hu.2
    | some b =>
      rw [List.filterMap_cons, hp]
      simp only [Option.map_some']
      rw [show zscore ((memberOf v0, b) :: List.filterMap
            (fun v => (p v).map (fun b => (memberOf v, b))) rest) (memberOf u)
          = if memberOf v0 = memberOf u then some b
            else zscore (List.filterMap
              (fun v => (p v).map (fun b => (memberOf v, b))) rest) (memberOf u)
        from rfl, if_neg hne]
      exact ih u hu.2

theorem zscore_filterMap_payload (p : UserR → Option Nat) :
    ∀ (us : List UserR), (us.map UserR.id).Nodup → ∀ u ∈ us,
      zscore (us.filterMap (fun v => (p v).map (fun b => (memberOf v, b))))
        (memberOf u) = p u := by
  intro us
  induction us with
  | nil =>
    intro _ u hu
    cases hu
  | cons v0 rest ih =>
    intro hnd u hu
    simp only [List.map_cons, List.nodup_cons] at hnd
    rcases List.mem_cons.mp hu with rfl | hur
    · cases hp : p u with
      | some b =>
        rw [List.filterMap_cons, hp]
        simp [zscore]
      | none =>
        rw [List.filterMap_cons, hp]
        exact zscore_filterMap_none p rest u hnd.1
    · have hne : memberOf v0 ≠ memberOf u := by
        apply memberOf_ne_of_id_ne
        intro hc
        exact hnd.1 (hc ▸ List.mem_map_of_mem UserR.id hur)
      cases hp : p v0 with
      | none =>
        rw [List.filterMap_cons, hp]
        exact ih hnd.2 u hur
      | some b =>
        rw [List.filterMap_cons, hp]
        simp only [Option.map_some']
        rw [show zscore ((memberOf v0, b) :: List.filterMap
              (fun v => (p v).map (fun b => (memberOf v, b))) rest) (memberOf u)
            = if memberOf v0 = memberOf u then some b
              else zscore (List.filterMap
                (fun v => (p v).map (fun b => (memberOf v, b))) rest) (memberOf u)
          from rfl, if_neg hne]
        exact ih hnd.2 u hur

end SyncCharLemmas

section ForceSyncLemmas

theorem nodup_activeUsers_ids (db : DB) (h : (db.users.map UserR.id).Nodup) :
    ((activeUsers db).map UserR.id).Nodup :=
  ((List.filter_sublist db.users).map UserR.id).nodup h

theorem nodup_activeGames_ids (db : DB) (h : (db.games.map GameR.id).Nodup) :
    ((activeGames db).map GameR.id).Nodup :=
  ((List.filter_sublist db.games).map GameR.id).nodup h

/-- After a force sync, an active game's board is exactly the active users
paired with their per-game ledger maxima, in user-table order. -/
theorem forceSync_game_board (db : DB) (ds : DateStrings) (t w m : Int) (st : Store)
    (g : GameR) (hg : g ∈ activeGames db)
    (hgnd : ((activeGames db).map GameR.id).Nodup)
    (hund : ((activeUsers db).map UserR.id).Nodup) :
    ((forceSyncLeaderboards db ds t w m st).1).game g.id
      = (activeUsers db).filterMap
          (fun u => (ledgerMax db.scores u.id g.id).map (fun b => (memberOf u, b))) := by
  simp only [forceSyncLeaderboards]
  rw [congrFun (rebuildTimeBasedLeaderboards_game db.scores ds t w m (activeUsers db) _) g.id]
  rw [usersFold_game_char db.scores (activeGames db) g hgnd hg (activeUsers db) _ hund
    (by
      intro u hu
      rw [clearGameBoards_game_mem (activeGames db) _ g hg]
      rfl)]
  rw [clearGameBoards_game_mem (activeGames db) _ g hg]
  rfl

/-- After a force sync, the global board is exactly the active users with a
strictly positive all-games ledger sum, paired with that sum. -/
theorem forceSync_global_board (db : DB) (ds : DateStrings) (t w m : Int) (st : Store)
    (hund : ((activeUsers db).map UserR.id).Nodup) :
    ((forceSyncLeaderboards db ds t w m st).1).global
      = (activeUsers db).filterMap
          (fun u => (if 0 < ledgerSumAll db.scores u.id
                     then some (ledgerSumAll db.scores u.id) else none).map
              (fun b => (memberOf u, b))) := by
  simp only [forceSyncLeaderboards]
  rw [rebuildTimeBasedLeaderboards_global]
  rw [usersFold_global_char db.scores (activeGames db) (activeUsers db) _ hund
    (by
      intro u hu
      rw [clearGameBoards_global]
      rfl)]
  rw [clearGameBoards_global]
  rfl

theorem forceSync_game_zscore (db : DB) (ds : DateStrings) (t w m : Int) (st : Store)
    (g : GameR) (u : UserR) (hg : g ∈ activeGames db) (hu : u ∈ activeUsers db)
    (hgnd : ((activeGames db).map GameR.id).Nodup)
    (hund : ((activeUsers db).map UserR.id).Nodup) :
    zscore (((forceSyncLeaderboards db ds t w m st).1).game g.id) (memberOf u)
      = ledgerMax db.scores u.id g.id := by
  rw [forceSync_game_board db ds t w m st g hg hgnd hund]
  exact zscore_filterMap_payload (fun v => ledgerMax db.scores v.id g.id)
    (activeUsers db) hund u hu

theorem forceSync_global_zscore (db : DB) (ds : DateStrings) (t w m : Int) (st : Store)
    (u : UserR) (hu : u ∈ activeUsers db)
    (hund : ((activeUsers db).map UserR.id).Nodup) :
    zscore ((forceSyncLeaderboards db ds t w m st).1).global (memberOf u)
      = if 0 < ledgerSumAll db.scores u.id
        then some (ledgerSumAll db.scores u.id) else none := by
  rw [forceSync_global_board db ds t w m st hund]
  exact zscore_filterMap_payload
    (fun v => if 0 < ledgerSumAll db.scores v.id
              then some (ledgerSumAll db.scores v.id) else none)
    (activeUsers db) hund u hu

end ForceSyncLemmas

section MaxSumLemmas

theorem listMax_eq_foldl (l : List Nat) (h : l ≠ []) :
    listMax l = some (l.foldl max 0) := by
  cases l with
  | nil => cases h rfl
  | cons x xs =>
    rw [listMax, List.foldl_cons, Nat.zero_max]

theorem foldl_max_zero (l : List Nat) (h : ∀ x ∈ l, x = 0) : l.foldl max 0 = 0 := by
  induction l with
  | nil => rfl
  | cons x xs ih =>
    rw [List.foldl_cons, h x (List.mem_cons_self _ _), Nat.max_self]
    exact ih (fun y hy => h y (List.mem_cons_of_mem _ hy))

end MaxSumLemmas

/-- C1: for any nonempty sequence of submissions by one user to a single
category, starting with no entry for the member, the category board entry
equals the maximum submitted value; and after a full rebuild the category
board entry is the ledger maximum of that user in that category (which, when
the user has score rows there, is again the maximum submitted value). -/
theorem C1_category_board_is_max :
    (∀ (uid un g : String) (subs : List (DateStrings × String × Nat)) (st : Store),
      subs ≠ [] → (∀ sub ∈ subs, sub.2.1 = g) →
      zscore (st.game g) (EncMember.enc uid un) = none →
      zscore ((runSubmissions uid un subs st).game g) (EncMember.enc uid un)
        = some ((subs.map (fun sub => sub.2.2)).foldl max 0)) ∧
    (∀ (db : DB) (ds : DateStrings) (t w m : Int) (st : Store) (u : UserR) (g : GameR),
      (db.users.map UserR.id).Nodup → (db.games.map GameR.id).Nodup →
      u ∈ db.users → u.isActive = true → g ∈ db.games → g.isActive = true →
      zscore (((forceSyncLeaderboards db ds t w m st).1).game g.id) (memberOf u)
        = ledgerMax db.scores u.id g.id ∧
      ((db.scores.filter
          (fun r => decide (r.userId = u.id) && decide (r.gameId = g.id))).map
            (fun r => r.score) ≠ [] →
        ledgerMax db.scores u.id g.id
          = some (((db.scores.filter
              (fun r => decide (r.userId = u.id) && decide (r.gameId = g.id))).map
                (fun r => r.score)).foldl max 0))) := by
  constructor
  · intro uid un g subs st hne hall h
    cases subs with
    | nil => cases hne rfl
    | cons sub rest =>
      obtain ⟨ds0, g0, v0⟩ := sub
      have hg : g0 = g := hall ⟨ds0, g0, v0⟩ (List.mem_cons_self _ _)
      subst hg
      rw [runSubmissions_cons]
      have hb : zscore (((addScore ds0 uid g0 v0 un st).1).game g0)
          (EncMember.enc uid un) = some v0 := by
        rw [addScore_fst_game, if_pos rfl, zscore_zaddGT_self, h]
        rfl
      rw [runSubmissions_game_some uid un g0 rest
        (fun sub hs => hall sub (List.mem_cons_of_mem _ hs)) _ _ hb]
      rw [List.map_cons, List.foldl_cons, Nat.zero_max]
  · intro db ds t w m st u g hund hgnd hu hua hg hga
    have hu2 : u ∈ activeUsers db := List.mem_filter.mpr ⟨hu, by simp [hua]⟩
    have hg2 : g ∈ activeGames db := List.mem_filter.mpr ⟨hg, by simp [hga]⟩
    refine ⟨forceSync_game_zscore db ds t w m st g u hg2 hu2
      (nodup_activeGames_ids db hgnd) (nodup_activeUsers_ids db hund), ?_⟩
    intro hne
    exact listMax_eq_foldl _ hne

/-- Concrete DB for the C1 witness: the spec's 50-then-30-then-70 example. -/
def dbC1 : DB :=
  ⟨[⟨"u1", "alice", true⟩], [⟨"g1", "Pong", true, none⟩],
   [⟨"u1", "g1", 50, 0⟩, ⟨"u1", "g1", 30, 1⟩, ⟨"u1", "g1", 70, 2⟩]⟩

theorem C1_category_board_is_max_witness :
    zscore ((runSubmissions "u1" "alice"
        [(⟨"d", "w", "m"⟩, "g1", 50), (⟨"d", "w", "m"⟩, "g1", 30),
         (⟨"d", "w", "m"⟩, "g1", 70)] emptyStore).game "g1")
      (EncMember.enc "u1" "alice") = some 70 ∧
    zscore (((forceSyncLeaderboards dbC1 ⟨"d", "w", "m"⟩ 0 0 0 emptyStore).1).game "g1")
      (memberOf ⟨"u1", "alice", true⟩) = ledgerMax dbC1.scores "u1" "g1" :=
  ⟨C1_category_board_is_max.1 "u1" "alice" "g1"
      [(⟨"d", "w", "m"⟩, "g1", 50), (⟨"d", "w", "m"⟩, "g1", 30),
       (⟨"d", "w", "m"⟩, "g1", 70)] emptyStore (by decide) (by decide) rfl,
   (C1_category_board_is_max.2 dbC1 ⟨"d", "w", "m"⟩ 0 0 0 emptyStore
      ⟨"u1", "alice", true⟩ ⟨"g1", "Pong", true, none⟩ (by decide) (by decide)
      (by decide) rfl (by decide) rfl).1⟩

/-- C2 (amended): along the incremental path the global board entry of a user
equals the sum of all submitted values across all categories (for any nonempty
submission sequence starting with no global entry); after a full rebuild the
global entry equals the user's ledger-wide sum when that sum is strictly
positive, and is ABSENT when the sum is 0 (the rebuild's upsert is guarded by
totalScore > 0). -/
theorem C2_global_board_is_sum :
    (∀ (uid un : String) (subs : List (DateStrings × String × Nat)) (st : Store),
      subs ≠ [] →
      zscore st.global (EncMember.enc uid un) = none →
      zscore ((runSubmissions uid un subs st).global) (EncMember.enc uid un)
        = some ((subs.map (fun sub => sub.2.2)).sum)) ∧
    (∀ (db : DB) (ds : DateStrings) (t w m : Int) (st : Store) (u : UserR),
      (db.users.map UserR.id).Nodup →
      u ∈ db.users → u.isActive = true →
      zscore ((forceSyncLeaderboards db ds t w m st).1).global (memberOf u)
        = if 0 < ledgerSumAll db.scores u.id
          then some (ledgerSumAll db.scores u.id) else none) := by
  constructor
  · intro uid un subs st hne h
    cases subs with
    | nil => cases hne rfl
    | cons sub rest =>
      obtain ⟨ds0, g0, v0⟩ := sub
      rw [runSubmissions_cons]
      have hb : zscore (((addScore ds0 uid g0 v0 un st).1).global)
          (EncMember.enc uid un) = some v0 := by
        rw [addScore_fst_global, zscore_zincrby_self, h]
        simp
      rw [runSubmissions_global_some uid un rest _ _ hb]
      simp
  · intro db ds t w m st u hund hu hua
    have hu2 : u ∈ activeUsers db := List.mem_filter.mpr ⟨hu, by simp [hua]⟩
    exact forceSync_global_zscore db ds t w m st u hu2 (nodup_activeUsers_ids db hund)

/-- Concrete DB for the C2 counterexample: one active user whose only
submission has value 0. -/
def dbC2 : DB :=
  ⟨[⟨"u1", "alice", true⟩], [⟨"g1", "Pong", true, none⟩], [⟨"u1", "g1", 0, 0⟩]⟩

/-- C2 counterexample: after forceSync, a user who submitted (only zeros, here
a single 0) has NO global entry, although the sum of the submitted values is 0
— the claim would require the entry to exist with value 0. -/
theorem C2_counterexample :
    dbC2.scores ≠ [] ∧
    ledgerSumAll dbC2.scores "u1" = 0 ∧
    zscore ((forceSyncLeaderboards dbC2 ⟨"d", "w", "m"⟩ 0 0 0 emptyStore).1).global
      (EncMember.enc "u1" "alice") = none := by
  exact ⟨by decide, rfl, by decide⟩

/-- Concrete DB for the C2 witness: the spec's 10-to-A, 20-to-B example. -/
def dbC2w : DB :=
  ⟨[⟨"u1", "alice", true⟩],
   [⟨"gA", "A", true, none⟩, ⟨"gB", "B", true, none⟩],
   [⟨"u1", "gA", 10, 0⟩, ⟨"u1", "gB", 20, 1⟩]⟩

theorem C2_global_board_is_sum_witness :
    zscore ((runSubmissions "u1" "alice"
        [(⟨"d", "w", "m"⟩, "gA", 10), (⟨"d", "w", "m"⟩, "gB", 20)] emptyStore).global)
      (EncMember.enc "u1" "alice") = some 30 ∧
    zscore ((forceSyncLeaderboards dbC2w ⟨"d", "w", "m"⟩ 0 0 0 emptyStore).1).global
      (memberOf ⟨"u1", "alice", true⟩)
      = if 0 < ledgerSumAll dbC2w.scores "u1"
        then some (ledgerSumAll dbC2w.scores "u1") else none :=
  ⟨C2_global_board_is_sum.1 "u1" "alice"
      [(⟨"d", "w", "m"⟩, "gA", 10), (⟨"d", "w", "m"⟩, "gB", 20)] emptyStore
      (by decide) rfl,
   C2_global_board_is_sum.2 dbC2w ⟨"d", "w", "m"⟩ 0 0 0 emptyStore
      ⟨"u1", "alice", true⟩ (by decide) (by decide) rfl⟩

/-- C10: after a force sync, an active user whose score rows in an active
category exist but whose all-categories total is 0 has a score-0 entry on that
category board yet NO entry on the global board; on the incremental path, by
contrast, addScore creates a global entry even for a zero-valued submission. -/
theorem C10_zero_total_user_split (db : DB) (ds : DateStrings) (t w m : Int)
    (st : Store) (u : UserR) (g : GameR)
    (hund : (db.users.map UserR.id).Nodup) (hgnd : (db.games.map GameR.id).Nodup)
    (hu : u ∈ db.users) (hua : u.isActive = true)
    (hg : g ∈ db.games) (hga : g.isActive = true)
    (hrec : ∃ r ∈ db.scores, r.userId = u.id ∧ r.gameId = g.id)
    (hsum : ledgerSumAll db.scores u.id = 0) :
    zscore (((forceSyncLeaderboards db ds t w m st).1).game g.id) (memberOf u)
      = some 0 ∧
    zscore ((forceSyncLeaderboards db ds t w m st).1).global (memberOf u) = none ∧
    (∀ (ds2 : DateStrings) (st2 : Store),
      zscore st2.global (memberOf u) = none →
      zscore (((addScore ds2 u.id g.id 0 u.username st2).1).global) (memberOf u)
        = some 0) := by
  have hu2 : u ∈ activeUsers db := List.mem_filter.mpr ⟨hu, by simp [hua]⟩
  have hg2 : g ∈ activeGames db := List.mem_filter.mpr ⟨hg, by simp [hga]⟩
  obtain ⟨r, hr, hru, hrg⟩ := hrec
  have hallzero : ∀ x ∈ (db.scores.filter
      (fun r => decide (r.userId = u.id))).map (fun r => r.score), x = 0 := by
    rw [← List.sum_eq_zero_iff]
    exact hsum
  refine ⟨?_, ?_, ?_⟩
  · rw [forceSync_game_zscore db ds t w m st g u hg2 hu2
      (nodup_activeGames_ids db hgnd) (nodup_activeUsers_ids db hund)]
    have hmem : r.score ∈ (db.scores.filter
        (fun r => decide (r.userId = u.id) && decide (r.gameId = g.id))).map
          (fun r => r.score) :=
      List.mem_map_of_mem _ (List.mem_filter.mpr ⟨hr, by simp [hru, hrg]⟩)
    have hne : (db.scores.filter
        (fun r => decide (r.userId = u.id) && decide (r.gameId = g.id))).map
          (fun r => r.score) ≠ [] := List.ne_nil_of_mem hmem
    rw [show ledgerMax db.scores u.id g.id
        = listMax ((db.scores.filter
            (fun r => decide (r.userId = u.id) && decide (r.gameId = g.id))).map
              (fun r => r.score)) from rfl,
      listMax_eq_foldl _ hne, foldl_max_zero]
    intro x hx
    apply hallzero
    obtain ⟨r2, hr2, hrx⟩ := List.mem_map.mp hx
    have hr2f := List.mem_filter.mp hr2
    exact hrx ▸ List.mem_map_of_mem _
      (List.mem_filter.mpr ⟨hr2f.1, by
        have := hr2f.2
        simp only [Bool.and_eq_true] at this
        exact this.1⟩)
  · rw [forceSync_global_zscore db ds t w m st u hu2 (nodup_activeUsers_ids db hund),
      hsum]
    rfl
  · intro ds2 st2 h2
    rw [addScore_fst_global]
    simp only [memberOf] at h2 ⊢
    rw [zscore_zincrby_self, h2]
    simp

/-- Concrete DB for the C10 witness: one active user with a single zero-valued
score row in an active game. -/
def dbC10 : DB :=
  ⟨[⟨"u1", "alice", true⟩], [⟨"g1", "Pong", true, none⟩], [⟨"u1", "g1", 0, 5⟩]⟩

theorem C10_zero_total_user_split_witness :
    zscore (((forceSyncLeaderboards dbC10 ⟨"d", "w", "m"⟩ 0 0 0 emptyStore).1).game "g1")
      (memberOf ⟨"u1", "alice", true⟩) = some 0 ∧
    zscore ((forceSyncLeaderboards dbC10 ⟨"d", "w", "m"⟩ 0 0 0 emptyStore).1).global
      (memberOf ⟨"u1", "alice", true⟩) = none ∧
    zscore (((addScore ⟨"d", "w", "m"⟩ "u1" "g1" 0 "alice" emptyStore).1).global)
      (memberOf ⟨"u1", "alice", true⟩) = some 0 := by
  have h := C10_zero_total_user_split dbC10 ⟨"d", "w", "m"⟩ 0 0 0 emptyStore
    ⟨"u1", "alice", true⟩ ⟨"g1", "Pong", true, none⟩ (by decide) (by decide)
    (by decide) rfl (by decide) rfl (by decide) rfl
  exact ⟨h.1, h.2.1, h.2.2 ⟨"d", "w", "m"⟩ emptyStore rfl⟩

section CountLemmas

theorem length_filterMap_payload {α β : Type} (f : α → Option β) (l : List α) :
    (l.filterMap f).length = l.countP (fun a => (f a).isSome) := by
  induction l with
  | nil => rfl
  | cons x xs ih =>
    rw [List.filterMap_cons]
    cases hx : f x with
    | none =>
      rw [ih, List.countP_cons]
      simp [hx]
    | some b =>
      rw [List.length_cons, ih, List.countP_cons]
      simp [hx]

theorem ledgerMax_isSome_iff (l : List ScoreRecord) (uid gid : String) :
    (ledgerMax l uid gid).isSome = true
      ↔ ∃ r ∈ l, r.userId = uid ∧ r.gameId = gid := by
  unfold ledgerMax
  cases hl : l.filter (fun r => decide (r.userId = uid) && decide (r.gameId = gid)) with
  | nil =>
    simp only [List.map_nil, listMax, Option.isSome_none, Bool.false_eq_true, false_iff]
    rintro ⟨r, hr, h1, h2⟩
    have hm : r ∈ l.filter
        (fun r => decide (r.userId = uid) && decide (r.gameId = gid)) :=
      List.mem_filter.mpr ⟨hr, by simp [h1, h2]⟩
    rw [hl] at hm
    cases hm
  | cons r0 rs =>
    simp only [List.map_cons, listMax, Option.isSome_some, true_iff]
    have hr : r0 ∈ l.filter
        (fun r => decide (r.userId = uid) && decide (r.gameId = gid)) := by
      rw [hl]
      exact List.mem_cons_self _ _
    have h := List.mem_filter.mp hr
    refine ⟨r0, h.1, ?_⟩
    simpa using h.2

/-- After a force sync, an active game's board cardinality equals the distinct
ledger player count of that game, provided every user holding a score row of
that game is an active user of the user table. -/
theorem forceSync_game_card (db : DB) (ds : DateStrings) (t w m : Int) (st : Store)
    (g : GameR) (hg : g ∈ activeGames db)
    (hund0 : (db.users.map UserR.id).Nodup)
    (hgnd : ((activeGames db).map GameR.id).Nodup)
    (H : ∀ r ∈ db.scores, r.gameId = g.id →
         ∃ u ∈ db.users, u.isActive = true ∧ u.id = r.userId) :
    zcard (((forceSyncLeaderboards db ds t w m st).1).game g.id)
      = distinctPlayers db.scores g.id := by
  have hund : ((activeUsers db).map UserR.id).Nodup := nodup_activeUsers_ids db hund0
  rw [zcard, forceSync_game_board db ds t w m st g hg hgnd hund,
    length_filterMap_payload]
  have hcount : (activeUsers db).countP
        (fun u => ((ledgerMax db.scores u.id g.id).map
          (fun b => (memberOf u, b))).isSome)
      = (activeUsers db).countP
          (fun u => (ledgerMax db.scores u.id g.id).isSome) := by
    apply List.countP_congr
    intro u _
    simp [Option.isSome_map']
  rw [hcount, List.countP_eq_length_filter]
  have hnodup : (((activeUsers db).filter
      (fun u => (ledgerMax db.scores u.id g.id).isSome)).map UserR.id).Nodup :=
    ((List.filter_sublist (activeUsers db)).map UserR.id).nodup hund
  rw [show ((activeUsers db).filter
        (fun u => (ledgerMax db.scores u.id g.id).isSome)).length
      = (((activeUsers db).filter
          (fun u => (ledgerMax db.scores u.id g.id).isSome)).map UserR.id).length
    from (List.length_map _ _).symm]
  rw [← List.toFinset_card_of_nodup hnodup, distinctPlayers, ← List.card_toFinset]
  congr 1
  ext a
  simp only [List.mem_toFinset, List.mem_map, List.mem_filter]
  constructor
  · rintro ⟨u, ⟨⟨hu, hmax⟩, hid⟩⟩
    obtain ⟨r, hr, hru, hrg⟩ := (ledgerMax_isSome_iff db.scores u.id g.id).mp hmax
    exact ⟨r, ⟨hr, by simp [hrg]⟩, by rw [hru, hid]⟩
  · rintro ⟨r, ⟨hr, hrg⟩, hra⟩
    have hrg2 : r.gameId = g.id := by simpa using hrg
    obtain ⟨u, hu, hua, hid⟩ := H r hr hrg2
    refine ⟨u, ⟨⟨List.mem_filter.mpr ⟨hu, by simp [hua]⟩, ?_⟩, by rw [hid, hra]⟩⟩
    exact (ledgerMax_isSome_iff db.scores u.id g.id).mpr
      ⟨r, hr, by rw [hid], hrg2⟩

end CountLemmas

/-- C5 (amended): immediately after forceSync (no concurrent writes — the
model is sequential), getSyncStatus reports every active category in sync
(ledger distinct-player count = board cardinality), PROVIDED every user owning
a score row of an active category is an active user; an inactive user's rows
are counted on the ledger side but skipped by the rebuild, producing a
reported divergence. -/
theorem C5_status_zero_divergence (db : DB) (ds : DateStrings) (t w m : Int)
    (st : Store)
    (hund : (db.users.map UserR.id).Nodup) (hgnd : (db.games.map GameR.id).Nodup)
    (H : ∀ r ∈ db.scores, (∃ g ∈ db.games, g.isActive = true ∧ g.id = r.gameId) →
         ∃ u ∈ db.users, u.isActive = true ∧ u.id = r.userId) :
    ∀ gs ∈ (getSyncStatus db (forceSyncLeaderboards db ds t w m st).1).games,
      gs.inSync = true := by
  intro gs hgs
  simp only [getSyncStatus, List.mem_map] at hgs
  obtain ⟨g, hg, rfl⟩ := hgs
  have hga : g.isActive = true := by
    simpa using (List.mem_filter.mp hg).2
  have hcard := forceSync_game_card db ds t w m st g hg hund
    (nodup_activeGames_ids db hgnd)
    (fun r hr hrg => H r hr ⟨g, (List.mem_filter.mp hg).1, hga, hrg.symm⟩)
  simp [hcard]

/-- Concrete DB for the C5 counterexample: the only score row of the active
game belongs to an INACTIVE user. -/
def dbC5 : DB :=
  ⟨[⟨"u1", "bob", false⟩], [⟨"g1", "Pong", true, none⟩], [⟨"u1", "g1", 10, 0⟩]⟩

/-- C5 counterexample: immediately after forceSync with no concurrent writes,
getSyncStatus reports the category diverged (1 ledger player vs 0 board
entries), because the rebuild iterates active users only while the status
query counts distinct users over all score rows. -/
theorem C5_counterexample :
    (getSyncStatus dbC5 (forceSyncLeaderboards dbC5 ⟨"d", "w", "m"⟩ 0 0 0
        emptyStore).1).games
      = [{ gameId := "g1", gameName := "Pong", dbPlayers := 1, redisPlayers := 0,
           inSync := false }] := by
  rfl

/-- Concrete DB for the C5 witness: every score row belongs to an active user. -/
def dbC5w : DB :=
  ⟨[⟨"u1", "alice", true⟩, ⟨"u2", "bob", true⟩],
   [⟨"g1", "Pong", true, none⟩],
   [⟨"u1", "g1", 10, 0⟩, ⟨"u2", "g1", 20, 0⟩, ⟨"u1", "g1", 15, 1⟩]⟩

theorem C5_status_zero_divergence_witness :
    ((getSyncStatus dbC5w (forceSyncLeaderboards dbC5w ⟨"d", "w", "m"⟩ 0 0 0
        emptyStore).1).games.all (fun gs => gs.inSync)) = true := by
  have h := C5_status_zero_divergence dbC5w ⟨"d", "w", "m"⟩ 0 0 0 emptyStore
    (by decide) (by decide) (by decide)
  exact List.all_eq_true.mpr (fun gs hgs => h gs hgs)

end Leaderboard
